import Mathlib

/-!
Verification development for the `rustedbytes-sha` checksum utility.

The development shallowly embeds the program's two source files:

* `src/hasher.rs` — the digest engine: an algorithm selector enumeration
  (`HashAlgorithm`) and the dispatch functions `calculate_hash` /
  `calculate_empty_hash`.  The eleven hash primitives themselves live in
  external crates (`sha1`, `sha2`, `sha3`, `blake2`); they are embedded here
  as executable Lean implementations of their public specifications
  (FIPS 180-4, FIPS 202, RFC 7693), which is the behavior the crates
  implement.  The RustCrypto `Digest` API pattern used by the source —
  `Hasher::new()`, at most one `update(data)`, then `finalize()` — is the
  one-shot hash of the accumulated bytes, so each match arm is embedded as
  the corresponding one-shot primitive applied to `data` (or to `[]` when no
  `update` call is made, as in `calculate_empty_hash`).

* `src/main.rs` — the streaming reader adapter `calculate_hash_from_reader`
  and the check-mode verification coordinator `check_hashes` /
  `process_file_check`.  File I/O is modelled by a filesystem valuation
  `String → Option (List Nat)` (`none` = the file cannot be opened/read),
  and a reader is modelled by the list of byte chunks its successive `read`
  calls return.

Bytes are modelled as `Nat` (the program's `u8` values are below 256; every
digest byte produced here is explicitly reduced `% 256`).
-/

/-! ## Generic byte/word utilities -/

/-- Modulus for 32-bit machine words. -/
def m32 : Nat := 4294967296

/-- Modulus for 64-bit machine words. -/
def m64 : Nat := 18446744073709551616

/-- All-ones mask for 32-bit machine words. -/
def mask32 : Nat := 4294967295

/-- All-ones mask for 64-bit machine words. -/
def mask64 : Nat := 18446744073709551615

/-- Right rotation of a 32-bit word. -/
def rotr32 (n x : Nat) : Nat :=
  ((x >>> n) ||| (x <<< (32 - n))) % m32

/-- Left rotation of a 32-bit word. -/
def rotl32 (n x : Nat) : Nat :=
  ((x <<< n) ||| (x >>> (32 - n))) % m32

/-- Right rotation of a 64-bit word. -/
def rotr64 (n x : Nat) : Nat :=
  ((x >>> n) ||| (x <<< (64 - n))) % m64

/-- Left rotation of a 64-bit word. -/
def rotl64 (n x : Nat) : Nat :=
  ((x <<< n) ||| (x >>> (64 - n))) % m64

/-- Big-endian word from a byte list (first byte most significant). -/
def beWord (bs : List Nat) : Nat :=
  bs.foldl (fun acc b => acc * 256 + b) 0

/-- Little-endian word from a byte list (first byte least significant). -/
def leWord (bs : List Nat) : Nat :=
  bs.foldr (fun b acc => acc * 256 + b) 0

/-- Big-endian byte list (length `n`) of a value. -/
def beBytes (n v : Nat) : List Nat :=
  (List.range n).map (fun i => (v >>> (8 * (n - 1 - i))) % 256)

/-- Serialize a word list into `outLen` bytes, each word `wb` bytes, each
word emitted most-significant byte first. -/
def bytesBE (wb outLen : Nat) (ws : List Nat) : List Nat :=
  (List.range outLen).map (fun i =>
    (ws.getD (i / wb) 0 >>> (8 * (wb - 1 - i % wb))) % 256)

/-- Serialize a word list into `outLen` bytes, each word `wb` bytes, each
word emitted least-significant byte first. -/
def bytesLE (wb outLen : Nat) (ws : List Nat) : List Nat :=
  (List.range outLen).map (fun i =>
    (ws.getD (i / wb) 0 >>> (8 * (i % wb))) % 256)

/-- Merkle–Damgård padding: append `128`, then zeros, then the bit length
in a big-endian field of `lenBytes` bytes, reaching a multiple of
`blockLen` bytes. -/
def mdPad (blockLen lenBytes : Nat) (msg : List Nat) : List Nat :=
  let padZeros := (blockLen - (msg.length + 1 + lenBytes) % blockLen) % blockLen
  msg ++ [128] ++ List.replicate padZeros 0 ++ beBytes lenBytes (8 * msg.length)

/-! ## SHA-1 (FIPS 180-4), the primitive behind the `sha1` crate -/

/-- SHA-1 initial state. -/
def sha1H0 : List Nat := [1732584193, 4023233417, 2562383102, 271733878, 3285377520]

/-- SHA-1 round: one step of the 80-step compression loop. -/
def sha1Round (t w : Nat) (st : List Nat) : List Nat :=
  let a := st.getD 0 0
  let b := st.getD 1 0
  let c := st.getD 2 0
  let d := st.getD 3 0
  let e := st.getD 4 0
  let f :=
    if t < 20 then (b &&& c) ||| ((b ^^^ mask32) &&& d)
    else if t < 40 then b ^^^ c ^^^ d
    else if t < 60 then (b &&& c) ||| (b &&& d) ||| (c &&& d)
    else b ^^^ c ^^^ d
  let k :=
    if t < 20 then 1518500249
    else if t < 40 then 1859775393
    else if t < 60 then 2400959708
    else 3395469782
  let temp := (rotl32 5 a + f + e + k + w) % m32
  [temp, a, rotl32 30 b, c, d]

/-- SHA-1 compression of one 64-byte block into the chaining state. -/
def sha1Compress (st : List Nat) (block : List Nat) : List Nat :=
  let ws0 := (List.range 16).map (fun j => beWord ((block.drop (4 * j)).take 4))
  let w := (List.range 64).foldl (fun acc _ =>
    let n := acc.length
    acc ++ [rotl32 1 (acc.getD (n - 3) 0 ^^^ acc.getD (n - 8) 0 ^^^
                      acc.getD (n - 14) 0 ^^^ acc.getD (n - 16) 0)]) ws0
  let fin := (List.range 80).foldl (fun s t => sha1Round t (w.getD t 0) s) st
  (List.range 5).map (fun i => (st.getD i 0 + fin.getD i 0) % m32)

/-- SHA-1 chaining value over a whole padded message. -/
def sha1Words (msg : List Nat) : List Nat :=
  let padded := mdPad 64 8 msg
  (List.range (padded.length / 64)).foldl
    (fun h i => sha1Compress h ((padded.drop (64 * i)).take 64)) sha1H0

/-- SHA-1 digest bytes (20 bytes). -/
def sha1Hash (msg : List Nat) : List Nat :=
  bytesBE 4 20 (sha1Words msg)

/-! ## SHA-2 (FIPS 180-4), the primitives behind the `sha2` crate -/

/-- SHA-256 round constants. -/
def sha256K : List Nat :=
  [1116352408, 1899447441, 3049323471, 3921009573, 961987163, 1508970993, 2453635748, 2870763221,
   3624381080, 310598401, 607225278, 1426881987, 1925078388, 2162078206, 2614888103, 3248222580,
   3835390401, 4022224774, 264347078, 604807628, 770255983, 1249150122, 1555081692, 1996064986,
   2554220882, 2821834349, 2952996808, 3210313671, 3336571891, 3584528711, 113926993, 338241895,
   666307205, 773529912, 1294757372, 1396182291, 1695183700, 1986661051, 2177026350, 2456956037,
   2730485921, 2820302411, 3259730800, 3345764771, 3516065817, 3600352804, 4094571909, 275423344,
   430227734, 506948616, 659060556, 883997877, 958139571, 1322822218, 1537002063, 1747873779,
   1955562222, 2024104815, 2227730452, 2361852424, 2428436474, 2756734187, 3204031479, 3329325298]

/-- SHA-256 initial state. -/
def sha256H0 : List Nat :=
  [1779033703, 3144134277, 1013904242, 2773480762, 1359893119, 2600822924, 528734635, 1541459225]

/-- SHA-224 initial state. -/
def sha224H0 : List Nat :=
  [3238371032, 914150663, 812702999, 4144912697, 4290775857, 1750603025, 1694076839, 3204075428]

/-- One step of the SHA-256 compression loop. -/
def sha256Round (k w : Nat) (st : List Nat) : List Nat :=
  let a := st.getD 0 0
  let b := st.getD 1 0
  let c := st.getD 2 0
  let d := st.getD 3 0
  let e := st.getD 4 0
  let f := st.getD 5 0
  let g := st.getD 6 0
  let h := st.getD 7 0
  let s1 := rotr32 6 e ^^^ rotr32 11 e ^^^ rotr32 25 e
  let ch := (e &&& f) ^^^ ((e ^^^ mask32) &&& g)
  let temp1 := (h + s1 + ch + k + w) % m32
  let s0 := rotr32 2 a ^^^ rotr32 13 a ^^^ rotr32 22 a
  let maj := (a &&& b) ^^^ (a &&& c) ^^^ (b &&& c)
  let temp2 := (s0 + maj) % m32
  [(temp1 + temp2) % m32, a, b, c, (d + temp1) % m32, e, f, g]

/-- SHA-256 compression of one 64-byte block into the chaining state. -/
def sha256Compress (st : List Nat) (block : List Nat) : List Nat :=
  let ws0 := (List.range 16).map (fun j => beWord ((block.drop (4 * j)).take 4))
  let w := (List.range 48).foldl (fun acc _ =>
    let n := acc.length
    let x15 := acc.getD (n - 15) 0
    let x2 := acc.getD (n - 2) 0
    let s0 := rotr32 7 x15 ^^^ rotr32 18 x15 ^^^ (x15 >>> 3)
    let s1 := rotr32 17 x2 ^^^ rotr32 19 x2 ^^^ (x2 >>> 10)
    acc ++ [(acc.getD (n - 16) 0 + s0 + acc.getD (n - 7) 0 + s1) % m32]) ws0
  let fin := (List.range 64).foldl
    (fun s t => sha256Round (sha256K.getD t 0) (w.getD t 0) s) st
  (List.range 8).map (fun i => (st.getD i 0 + fin.getD i 0) % m32)

/-- SHA-256-family chaining value over a whole padded message, from the
given initial state. -/
def sha2x32Words (h0 : List Nat) (msg : List Nat) : List Nat :=
  let padded := mdPad 64 8 msg
  (List.range (padded.length / 64)).foldl
    (fun h i => sha256Compress h ((padded.drop (64 * i)).take 64)) h0

/-- SHA-256 digest bytes (32 bytes). -/
def sha256Hash (msg : List Nat) : List Nat :=
  bytesBE 4 32 (sha2x32Words sha256H0 msg)

/-- SHA-224 digest bytes (28 bytes): SHA-256 core truncated, own IV. -/
def sha224Hash (msg : List Nat) : List Nat :=
  bytesBE 4 28 (sha2x32Words sha224H0 msg)

/-- SHA-512 round constants. -/
def sha512K : List Nat :=
  [4794697086780616226, 8158064640168781261, 13096744586834688815, 16840607885511220156,
   4131703408338449720, 6480981068601479193, 10538285296894168987, 12329834152419229976,
   15566598209576043074, 1334009975649890238, 2608012711638119052, 6128411473006802146,
   8268148722764581231, 9286055187155687089, 11230858885718282805, 13951009754708518548,
   16472876342353939154, 17275323862435702243, 1135362057144423861, 2597628984639134821,
   3308224258029322869, 5365058923640841347, 6679025012923562964, 8573033837759648693,
   10970295158949994411, 12119686244451234320, 12683024718118986047, 13788192230050041572,
   14330467153632333762, 15395433587784984357, 489312712824947311, 1452737877330783856,
   2861767655752347644, 3322285676063803686, 5560940570517711597, 5996557281743188959,
   7280758554555802590, 8532644243296465576, 9350256976987008742, 10552545826968843579,
   11727347734174303076, 12113106623233404929, 14000437183269869457, 14369950271660146224,
   15101387698204529176, 15463397548674623760, 17586052441742319658, 1182934255886127544,
   1847814050463011016, 2177327727835720531, 2830643537854262169, 3796741975233480872,
   4115178125766777443, 5681478168544905931, 6601373596472566643, 7507060721942968483,
   8399075790359081724, 8693463985226723168, 9568029438360202098, 10144078919501101548,
   10430055236837252648, 11840083180663258601, 13761210420658862357, 14299343276471374635,
   14566680578165727644, 15097957966210449927, 16922976911328602910, 17689382322260857208,
   500013540394364858, 748580250866718886, 1242879168328830382, 1977374033974150939,
   2944078676154940804, 3659926193048069267, 4368137639120453308, 4836135668995329356,
   5532061633213252278, 6448918945643986474, 6902733635092675308, 7801388544844847127]

/-- SHA-512 initial state. -/
def sha512H0 : List Nat :=
  [7640891576956012808, 13503953896175478587, 4354685564936845355, 11912009170470909681,
   5840696475078001361, 11170449401992604703, 2270897969802886507, 6620516959819538809]

/-- SHA-384 initial state. -/
def sha384H0 : List Nat :=
  [14680500436340154072, 7105036623409894663, 10473403895298186519, 1526699215303891257,
   7436329637833083697, 10282925794625328401, 15784041429090275239, 5167115440072839076]

/-- One step of the SHA-512 compression loop. -/
def sha512Round (k w : Nat) (st : List Nat) : List Nat :=
  let a := st.getD 0 0
  let b := st.getD 1 0
  let c := st.getD 2 0
  let d := st.getD 3 0
  let e := st.getD 4 0
  let f := st.getD 5 0
  let g := st.getD 6 0
  let h := st.getD 7 0
  let s1 := rotr64 14 e ^^^ rotr64 18 e ^^^ rotr64 41 e
  let ch := (e &&& f) ^^^ ((e ^^^ mask64) &&& g)
  let temp1 := (h + s1 + ch + k + w) % m64
  let s0 := rotr64 28 a ^^^ rotr64 34 a ^^^ rotr64 39 a
  let maj := (a &&& b) ^^^ (a &&& c) ^^^ (b &&& c)
  let temp2 := (s0 + maj) % m64
  [(temp1 + temp2) % m64, a, b, c, (d + temp1) % m64, e, f, g]

/-- SHA-512 compression of one 128-byte block into the chaining state. -/
def sha512Compress (st : List Nat) (block : List Nat) : List Nat :=
  let ws0 := (List.range 16).map (fun j => beWord ((block.drop (8 * j)).take 8))
  let w := (List.range 64).foldl (fun acc _ =>
    let n := acc.length
    let x15 := acc.getD (n - 15) 0
    let x2 := acc.getD (n - 2) 0
    let s0 := rotr64 1 x15 ^^^ rotr64 8 x15 ^^^ (x15 >>> 7)
    let s1 := rotr64 19 x2 ^^^ rotr64 61 x2 ^^^ (x2 >>> 6)
    acc ++ [(acc.getD (n - 16) 0 + s0 + acc.getD (n - 7) 0 + s1) % m64]) ws0
  let fin := (List.range 80).foldl
    (fun s t => sha512Round (sha512K.getD t 0) (w.getD t 0) s) st
  (List.range 8).map (fun i => (st.getD i 0 + fin.getD i 0) % m64)

/-- SHA-512-family chaining value over a whole padded message, from the
given initial state. -/
def sha2x64Words (h0 : List Nat) (msg : List Nat) : List Nat :=
  let padded := mdPad 128 16 msg
  (List.range (padded.length / 128)).foldl
    (fun h i => sha512Compress h ((padded.drop (128 * i)).take 128)) h0

/-- SHA-512 digest bytes (64 bytes). -/
def sha512Hash (msg : List Nat) : List Nat :=
  bytesBE 8 64 (sha2x64Words sha512H0 msg)

/-- SHA-384 digest bytes (48 bytes): SHA-512 core truncated, own IV. -/
def sha384Hash (msg : List Nat) : List Nat :=
  bytesBE 8 48 (sha2x64Words sha384H0 msg)

/-! ## SHA-3 (FIPS 202), the primitives behind the `sha3` crate -/

/-- Keccak rotation offsets, lane index `x + 5 * y`. -/
def keccakRho : List Nat :=
  List.flatten
    [[0, 1, 62, 28, 27], [36, 44, 6, 55, 20], [3, 10, 43, 25, 39],
     [41, 45, 15, 21, 8], [18, 2, 61, 56, 14]]

/-- Keccak round constants. -/
def keccakRC : List Nat :=
  [1, 32898, 9223372036854808714, 9223372039002292224,
   32907, 2147483649, 9223372039002292353, 9223372036854808585,
   138, 136, 2147516425, 2147483658,
   2147516555, 9223372036854775947, 9223372036854808713, 9223372036854808579,
   9223372036854808578, 9223372036854775936, 32778, 9223372039002259466,
   9223372039002292353, 9223372036854808704, 2147483649, 9223372039002292232]

/-- Keccak theta step on a 25-lane state. -/
def keccakTheta (s : List Nat) : List Nat :=
  let c := (List.range 5).map (fun x =>
    s.getD x 0 ^^^ s.getD (x + 5) 0 ^^^ s.getD (x + 10) 0 ^^^
    s.getD (x + 15) 0 ^^^ s.getD (x + 20) 0)
  let d := (List.range 5).map (fun x =>
    c.getD ((x + 4) % 5) 0 ^^^ rotl64 1 (c.getD ((x + 1) % 5) 0))
  (List.range 25).map (fun i => s.getD i 0 ^^^ d.getD (i % 5) 0)

/-- Keccak rho and pi steps: rotate each lane and move it to its target. -/
def keccakRhoPi (s : List Nat) : List Nat :=
  (List.range 25).foldl (fun b i =>
    let x := i % 5
    let y := i / 5
    b.set (y + 5 * ((2 * x + 3 * y) % 5)) (rotl64 (keccakRho.getD i 0) (s.getD i 0)))
    (List.replicate 25 0)

/-- Keccak chi step. -/
def keccakChi (s : List Nat) : List Nat :=
  (List.range 25).map (fun i =>
    let x := i % 5
    let y := i / 5
    s.getD i 0 ^^^
      ((s.getD ((x + 1) % 5 + 5 * y) 0 ^^^ mask64) &&& s.getD ((x + 2) % 5 + 5 * y) 0))

/-- The Keccak-f[1600] permutation (24 rounds, iota folded in). -/
def keccakF (s : List Nat) : List Nat :=
  (List.range 24).foldl (fun st r =>
    let st := keccakChi (keccakRhoPi (keccakTheta st))
    st.set 0 (st.getD 0 0 ^^^ keccakRC.getD r 0)) s

/-- SHA-3 multi-rate padding with domain byte `6`. -/
def keccakPad (rate : Nat) (msg : List Nat) : List Nat :=
  let q := rate - msg.length % rate
  if q = 1 then msg ++ [134]
  else msg ++ [6] ++ List.replicate (q - 2) 0 ++ [128]

/-- Absorb a padded message at the given byte rate into the sponge state. -/
def keccakAbsorb (rate : Nat) (msg : List Nat) : List Nat :=
  let p := keccakPad rate msg
  (List.range (p.length / rate)).foldl (fun s i =>
    let block := (p.drop (rate * i)).take rate
    let s2 := (List.range 25).map (fun j =>
      if j < rate / 8 then s.getD j 0 ^^^ leWord ((block.drop (8 * j)).take 8)
      else s.getD j 0)
    keccakF s2) (List.replicate 25 0)

/-- SHA-3 digest bytes at the given byte rate and output length (the output
lengths used here never exceed the rate, so one squeeze suffices). -/
def sha3Hash (rate outLen : Nat) (msg : List Nat) : List Nat :=
  bytesLE 8 outLen (keccakAbsorb rate msg)

/-- SHA3-224 digest bytes (28 bytes). -/
def sha3x224Hash (msg : List Nat) : List Nat := sha3Hash 144 28 msg

/-- SHA3-256 digest bytes (32 bytes). -/
def sha3x256Hash (msg : List Nat) : List Nat := sha3Hash 136 32 msg

/-- SHA3-384 digest bytes (48 bytes). -/
def sha3x384Hash (msg : List Nat) : List Nat := sha3Hash 104 48 msg

/-- SHA3-512 digest bytes (64 bytes). -/
def sha3x512Hash (msg : List Nat) : List Nat := sha3Hash 72 64 msg

/-! ## BLAKE2 (RFC 7693), the primitives behind the `blake2` crate -/

/-- BLAKE2 message schedule (10 rows). -/
def blake2Sigma : List (List Nat) :=
  [[0, 1, 2, 3, 4, 5, 6, 7, 8, 9, 10, 11, 12, 13, 14, 15],
   [14, 10, 4, 8, 9, 15, 13, 6, 1, 12, 0, 2, 11, 7, 5, 3],
   [11, 8, 12, 0, 5, 2, 15, 13, 10, 14, 3, 6, 7, 1, 9, 4],
   [7, 9, 3, 1, 13, 12, 11, 14, 2, 6, 5, 10, 4, 0, 15, 8],
   [9, 0, 5, 7, 2, 4, 10, 15, 14, 1, 11, 12, 6, 8, 3, 13],
   [2, 12, 6, 10, 0, 11, 8, 3, 4, 13, 7, 5, 15, 14, 1, 9],
   [12, 5, 1, 15, 14, 13, 4, 10, 0, 7, 6, 3, 9, 2, 8, 11],
   [13, 11, 7, 14, 12, 1, 3, 9, 5, 0, 15, 4, 8, 6, 2, 10],
   [6, 15, 14, 9, 11, 3, 0, 8, 12, 2, 13, 7, 1, 4, 10, 5],
   [10, 2, 8, 4, 7, 6, 1, 5, 15, 11, 9, 14, 3, 12, 13, 0]]

/-- BLAKE2b initial vector (the SHA-512 IV). -/
def blake2bIV : List Nat :=
  [7640891576956012808, 13503953896175478587, 4354685564936845355, 11912009170470909681,
   5840696475078001361, 11170449401992604703, 2270897969802886507, 6620516959819538809]

/-- BLAKE2s initial vector (the SHA-256 IV). -/
def blake2sIV : List Nat :=
  [1779033703, 3144134277, 1013904242, 2773480762, 1359893119, 2600822924, 528734635, 1541459225]

/-- BLAKE2b mixing function G on the 16-word working vector. -/
def b2bG (v : List Nat) (a b c d x y : Nat) : List Nat :=
  let va := (v.getD a 0 + v.getD b 0 + x) % m64
  let vd := rotr64 32 (v.getD d 0 ^^^ va)
  let vc := (v.getD c 0 + vd) % m64
  let vb := rotr64 24 (v.getD b 0 ^^^ vc)
  let va2 := (va + vb + y) % m64
  let vd2 := rotr64 16 (vd ^^^ va2)
  let vc2 := (vc + vd2) % m64
  let vb2 := rotr64 63 (vb ^^^ vc2)
  (((v.set a va2).set b vb2).set c vc2).set d vd2

/-- One BLAKE2b round over the working vector, using schedule row `r % 10`. -/
def b2bRound (m : List Nat) (r : Nat) (v : List Nat) : List Nat :=
  let s := blake2Sigma.getD (r % 10) []
  let mi := fun i => m.getD (s.getD i 0) 0
  let v := b2bG v 0 4 8 12 (mi 0) (mi 1)
  let v := b2bG v 1 5 9 13 (mi 2) (mi 3)
  let v := b2bG v 2 6 10 14 (mi 4) (mi 5)
  let v := b2bG v 3 7 11 15 (mi 6) (mi 7)
  let v := b2bG v 0 5 10 15 (mi 8) (mi 9)
  let v := b2bG v 1 6 11 12 (mi 10) (mi 11)
  let v := b2bG v 2 7 8 13 (mi 12) (mi 13)
  b2bG v 3 4 9 14 (mi 14) (mi 15)

/-- BLAKE2b compression: 12 rounds, byte offset `t`, final-block flag. -/
def b2bCompress (h : List Nat) (block : List Nat) (t : Nat) (last : Bool) : List Nat :=
  let m := (List.range 16).map (fun j => leWord ((block.drop (8 * j)).take 8))
  let v0 := h ++ blake2bIV
  let v1 := v0.set 12 (v0.getD 12 0 ^^^ (t % m64))
  let v2 := v1.set 13 (v1.getD 13 0 ^^^ ((t >>> 64) % m64))
  let v3 := if last then v2.set 14 (v2.getD 14 0 ^^^ mask64) else v2
  let v := (List.range 12).foldl (fun v r => b2bRound m r v) v3
  (List.range 8).map (fun i => h.getD i 0 ^^^ v.getD i 0 ^^^ v.getD (i + 8) 0)

/-- BLAKE2b-512 digest bytes (64 bytes), unkeyed. -/
def blake2b512Hash (msg : List Nat) : List Nat :=
  let h0 := blake2bIV.set 0 (blake2bIV.getD 0 0 ^^^ 16842816)
  let nBlocks := if msg.length = 0 then 1 else (msg.length + 127) / 128
  let h := (List.range nBlocks).foldl (fun h i =>
    let block := (msg.drop (128 * i)).take 128
    let block := block ++ List.replicate (128 - block.length) 0
    if i = nBlocks - 1 then b2bCompress h block msg.length true
    else b2bCompress h block ((i + 1) * 128) false) h0
  bytesLE 8 64 h

/-- BLAKE2s mixing function G on the 16-word working vector. -/
def b2sG (v : List Nat) (a b c d x y : Nat) : List Nat :=
  let va := (v.getD a 0 + v.getD b 0 + x) % m32
  let vd := rotr32 16 (v.getD d 0 ^^^ va)
  let vc := (v.getD c 0 + vd) % m32
  let vb := rotr32 12 (v.getD b 0 ^^^ vc)
  let va2 := (va + vb + y) % m32
  let vd2 := rotr32 8 (vd ^^^ va2)
  let vc2 := (vc + vd2) % m32
  let vb2 := rotr32 7 (vb ^^^ vc2)
  (((v.set a va2).set b vb2).set c vc2).set d vd2

/-- One BLAKE2s round over the working vector, using schedule row `r % 10`. -/
def b2sRound (m : List Nat) (r : Nat) (v : List Nat) : List Nat :=
  let s := blake2Sigma.getD (r % 10) []
  let mi := fun i => m.getD (s.getD i 0) 0
  let v := b2sG v 0 4 8 12 (mi 0) (mi 1)
  let v := b2sG v 1 5 9 13 (mi 2) (mi 3)
  let v := b2sG v 2 6 10 14 (mi 4) (mi 5)
  let v := b2sG v 3 7 11 15 (mi 6) (mi 7)
  let v := b2sG v 0 5 10 15 (mi 8) (mi 9)
  let v := b2sG v 1 6 11 12 (mi 10) (mi 11)
  let v := b2sG v 2 7 8 13 (mi 12) (mi 13)
  b2sG v 3 4 9 14 (mi 14) (mi 15)

/-- BLAKE2s compression: 10 rounds, byte offset `t`, final-block flag. -/
def b2sCompress (h : List Nat) (block : List Nat) (t : Nat) (last : Bool) : List Nat :=
  let m := (List.range 16).map (fun j => leWord ((block.drop (4 * j)).take 4))
  let v0 := h ++ blake2sIV
  let v1 := v0.set 12 (v0.getD 12 0 ^^^ (t % m32))
  let v2 := v1.set 13 (v1.getD 13 0 ^^^ ((t >>> 32) % m32))
  let v3 := if last then v2.set 14 (v2.getD 14 0 ^^^ mask32) else v2
  let v := (List.range 10).foldl (fun v r => b2sRound m r v) v3
  (List.range 8).map (fun i => h.getD i 0 ^^^ v.getD i 0 ^^^ v.getD (i + 8) 0)

/-- BLAKE2s-256 digest bytes (32 bytes), unkeyed. -/
def blake2s256Hash (msg : List Nat) : List Nat :=
  let h0 := blake2sIV.set 0 (blake2sIV.getD 0 0 ^^^ 16842784)
  let nBlocks := if msg.length = 0 then 1 else (msg.length + 63) / 64
  let h := (List.range nBlocks).foldl (fun h i =>
    let block := (msg.drop (64 * i)).take 64
    let block := block ++ List.replicate (64 - block.length) 0
    if i = nBlocks - 1 then b2sCompress h block msg.length true
    else b2sCompress h block ((i + 1) * 64) false) h0
  bytesLE 4 32 h

/-! ## Hex encoding (the `hex` crate's `hex::encode`, lowercase) -/

/-- Lowercase hex digit for a value below 16. -/
def hexDigit (n : Nat) : Char :=
  if n < 10 then Char.ofNat (48 + n) else Char.ofNat (87 + n)

/-- Lowercase hex string of a byte list, two digits per byte. -/
def hexEncode (bs : List Nat) : String :=
  String.mk (bs.flatMap (fun b => [hexDigit (b / 16), hexDigit (b % 16)]))

/-! ## The algorithm selector (src/hasher.rs, `HashAlgorithm`) -/

/-- The closed enumeration of the eleven supported hash algorithms. -/
inductive HashAlgorithm where
  | Sha1
  | Sha224
  | Sha256
  | Sha384
  | Sha512
  | Sha3_224
  | Sha3_256
  | Sha3_384
  | Sha3_512
  | Blake2b
  | Blake2s
deriving DecidableEq, Repr

/-- Canonical display name of an algorithm (src/hasher.rs, `name`). -/
def HashAlgorithm.name : HashAlgorithm → String
  | .Sha1 => "SHA-1"
  | .Sha224 => "SHA-224"
  | .Sha256 => "SHA-256"
  | .Sha384 => "SHA-384"
  | .Sha512 => "SHA-512"
  | .Sha3_224 => "SHA3-224"
  | .Sha3_256 => "SHA3-256"
  | .Sha3_384 => "SHA3-384"
  | .Sha3_512 => "SHA3-512"
  | .Blake2b => "BLAKE2b-512"
  | .Blake2s => "BLAKE2s-256"

/-- Fixed digest width in bytes of each algorithm, as the specification's
data model states it (spec section 3: 20, 28, 32, 48, 64, 28, 32, 48, 64,
64, 32). -/
def HashAlgorithm.widthBytes : HashAlgorithm → Nat
  | .Sha1 => 20
  | .Sha224 => 28
  | .Sha256 => 32
  | .Sha384 => 48
  | .Sha512 => 64
  | .Sha3_224 => 28
  | .Sha3_256 => 32
  | .Sha3_384 => 48
  | .Sha3_512 => 64
  | .Blake2b => 64
  | .Blake2s => 32

/-! ## The digest engine (src/hasher.rs) -/

/-- Dispatch table from algorithm to one-shot primitive; the bytes the
source obtains from `Hasher::new();
  hasher.update(data); hasher.finalize()` for each arm. -/
def hashBytesOf (algorithm : HashAlgorithm) (data : List Nat) : List Nat :=
  match algorithm with
  | .Sha1 => sha1Hash data
  | .Sha224 => sha224Hash data
  | .Sha256 => sha256Hash data
  | .Sha384 => sha384Hash data
  | .Sha512 => sha512Hash data
  | .Sha3_224 => sha3x224Hash data
  | .Sha3_256 => sha3x256Hash data
  | .Sha3_384 => sha3x384Hash data
  | .Sha3_512 => sha3x512Hash data
  | .Blake2b => blake2b512Hash data
  | .Blake2s => blake2s256Hash data

/-- Embedding of `calculate_empty_hash` (src/hasher.rs lines 128-144):
per-algorithm `Hasher::new().finalize()`, i.e. the one-shot hash of zero
accumulated bytes, hex encoded. -/
def calculate_empty_hash (algorithm : HashAlgorithm) : String :=
  let hash_bytes :=
    match algorithm with
    | .Sha1 => sha1Hash []
    | .Sha224 => sha224Hash []
    | .Sha256 => sha256Hash []
    | .Sha384 => sha384Hash []
    | .Sha512 => sha512Hash []
    | .Sha3_224 => sha3x224Hash []
    | .Sha3_256 => sha3x256Hash []
    | .Sha3_384 => sha3x384Hash []
    | .Sha3_512 => sha3x512Hash []
    | .Blake2b => blake2b512Hash []
    | .Blake2s => blake2s256Hash []
  hexEncode hash_bytes

/-- Embedding of `calculate_hash` (src/hasher.rs lines 62-126): if the
`is_empty` marker is set, delegate to `calculate_empty_hash`; otherwise
dispatch on the algorithm, update with `data`, finalize, hex encode. -/
def calculate_hash (data : List Nat) (algorithm : HashAlgorithm) (is_empty : Bool) : String :=
  if is_empty then calculate_empty_hash algorithm
  else
    let hash_bytes :=
      match algorithm with
      | .Sha1 => sha1Hash data
      | .Sha224 => sha224Hash data
      | .Sha256 => sha256Hash data
      | .Sha384 => sha384Hash data
      | .Sha512 => sha512Hash data
      | .Sha3_224 => sha3x224Hash data
      | .Sha3_256 => sha3x256Hash data
      | .Sha3_384 => sha3x384Hash data
      | .Sha3_512 => sha3x512Hash data
      | .Blake2b => blake2b512Hash data
      | .Blake2s => blake2s256Hash data
    hexEncode hash_bytes

/-! ## The streaming reader adapter (src/main.rs, `calculate_hash_from_reader`) -/

/-- Embedding of `calculate_hash_from_reader` (src/main.rs lines 116-139).
A reader is modelled by the list of byte chunks its successive `read` calls
return (each call fills at most the 8192-byte buffer; an exhausted reader
returns no further chunks, i.e. reads zero bytes).  The source loop always
breaks in its first iteration: a zero-byte first read yields the empty
marker; a first read that fills the buffer is followed by `read_to_end`,
which appends every remaining byte, and one hash call over the
concatenation; a shorter first read is hashed as the final and only chunk. -/
def calculate_hash_from_reader (chunks : List (List Nat)) (algorithm : HashAlgorithm) : String :=
  let buffer := chunks.headD []
  if buffer.length = 0 then calculate_hash [] algorithm true
  else if buffer.length = 8192 then
    let all_data := buffer ++ chunks.tail.flatten
    calculate_hash all_data algorithm false
  else calculate_hash buffer algorithm false

/-- Chunk sequence a `BufReader` over a regular file of the given content
delivers to `calculate_hash_from_reader`: the first `read` returns
`min (length, 8192)` bytes, and `read_to_end` then returns the rest. -/
def fileChunks (content : List Nat) : List (List Nat) :=
  if content.length <= 8192 then [content]
  else [content.take 8192, content.drop 8192]

/-- Compute-mode output line of `process_file` (src/main.rs line 110):
digest, exactly two spaces, path. -/
def computeLine (hash file_path : String) : String :=
  hash ++ "  " ++ file_path

/-! ## Check mode (src/main.rs, `check_hashes` / `process_file_check`) -/

/-- ASCII lowercase of a character; Rust's `str::to_lowercase` agrees with
this on ASCII strings, the domain of digests and manifest digest fields. -/
def toLowerCharAscii (c : Char) : Char :=
  if 'A' <= c && c <= 'Z' then Char.ofNat (c.toNat + 32) else c

/-- ASCII lowercase of a string (`str::to_lowercase` on ASCII input). -/
def toLowerAscii (s : String) : String :=
  String.mk (s.toList.map toLowerCharAscii)

/-- Whitespace predicate of `str::trim` (ASCII part of Rust's
`char::is_whitespace`; the manifests at issue are ASCII). -/
def isRustWhitespace (c : Char) : Bool :=
  c = ' ' || c = '\t' || c = '\n' || c = '\r' || c = '\x0b' || c = '\x0c'

/-- Whether `line.trim().is_empty()` holds: every character is whitespace. -/
def isBlank (line : String) : Bool :=
  line.toList.all isRustWhitespace

/-- Embedding of `line.splitn(2, "  ")` producing two parts: split at the
first occurrence of two consecutive spaces; `none` when the line has no
such separator (i.e. `parts.len() != 2`). -/
def splitTwoSpace : List Char → Option (List Char × List Char)
  | [] => none
  | c :: rest =>
    if c = ' ' && rest.head? = some ' ' then some ([], rest.tail)
    else
      match splitTwoSpace rest with
      | some (a, b) => some (c :: a, b)
      | none => none

/-- No two consecutive spaces occur in the character list. -/
def noTwoSpace : List Char → Bool
  | [] => true
  | c :: rest =>
    if c = ' ' && rest.head? = some ' ' then false else noTwoSpace rest

/-- Line splitting of Rust's `str::lines`: split on newline characters. -/
def splitNL : List Char → List (List Char)
  | [] => [[]]
  | c :: rest =>
    if c = '\n' then [] :: splitNL rest
    else
      match splitNL rest with
      | [] => [[c]]
      | l :: ls => (c :: l) :: ls

/-- Drop one trailing carriage return, as `str::lines` does per line. -/
def stripCR (l : List Char) : List Char :=
  if l.getLast? = some '\r' then l.dropLast else l

/-- Embedding of `content.lines()`: newline-separated segments, a final
empty segment (empty content or trailing newline) not yielded, each line
stripped of one trailing carriage return. -/
def linesOf (s : String) : List String :=
  let segs := splitNL s.toList
  let segs := if segs.getLast? = some [] then segs.dropLast else segs
  segs.map (fun l => String.mk (stripCR l))

/-- Per-line verification outcome of check mode (spec section 3:
`Ok`, `Mismatch`, `Error(reason)`, with skipped blank lines recorded as
`skip` to keep the sweep structural). -/
inductive LineOutcome where
  | skip
  | ok
  | mismatch
  | error (reason : String)
deriving DecidableEq, Repr

/-- Embedding of `process_file_check` (src/main.rs lines 198-206) over a
filesystem valuation `fs` (`none` = the file cannot be opened or read,
the `Err` path): recompute the digest through the reader adapter and
compare lowercased hex strings. -/
def process_file_check (fs : String → Option (List Nat)) (file_path expected_hash : String)
    (algorithm : HashAlgorithm) : Option Bool :=
  match fs file_path with
  | none => none
  | some content =>
    let actual_hash := calculate_hash_from_reader (fileChunks content) algorithm
    some (toLowerAscii actual_hash == toLowerAscii expected_hash)

/-- Body of the per-line loop of `check_hashes` (src/main.rs lines
152-188): skip blank lines; reject lines without the two-space separator;
reject the stdin marker as a target; otherwise recompute and compare. -/
def checkLine (fs : String → Option (List Nat)) (algorithm : HashAlgorithm)
    (line : String) : LineOutcome :=
  if isBlank line then LineOutcome.skip
  else
    match splitTwoSpace line.toList with
    | none => LineOutcome.error "improperly formatted"
    | some (parts0, parts1) =>
      let expected_hash := String.mk parts0
      let file_path := String.mk parts1
      if file_path = "-" then LineOutcome.error "cannot check stdin"
      else
        match process_file_check fs file_path expected_hash algorithm with
        | some true => LineOutcome.ok
        | some false => LineOutcome.mismatch
        | none => LineOutcome.error ("Failed to open file: " ++ file_path)

/-- Whether an outcome leaves `all_ok` untouched (blank-line skips and
`OK` lines do; mismatches and errors clear it). -/
def lineOk : LineOutcome → Bool
  | LineOutcome.skip => true
  | LineOutcome.ok => true
  | LineOutcome.mismatch => false
  | LineOutcome.error _ => false

/-- The per-line loop of `check_hashes` over one manifest's lines,
threading the `all_ok` flag and recording each line's outcome; the loop
never aborts early. -/
def checkLinesFold (fs : String → Option (List Nat)) (algorithm : HashAlgorithm) :
    List String → Bool → Bool × List LineOutcome
  | [], all_ok => (all_ok, [])
  | line :: rest, all_ok =>
    let o := checkLine fs algorithm line
    let r := checkLinesFold fs algorithm rest (all_ok && lineOk o)
    (r.1, o :: r.2)

/-- The outer loop of `check_hashes` over the manifest files (given as
their text contents; the source aborts earlier if a manifest file itself
cannot be read, before any line of it is processed). -/
def checkManifestsFold (fs : String → Option (List Nat)) (algorithm : HashAlgorithm) :
    List String → Bool × List LineOutcome → Bool × List LineOutcome
  | [], acc => acc
  | m :: rest, acc =>
    let r := checkLinesFold fs algorithm (linesOf m) acc.1
    checkManifestsFold fs algorithm rest (r.1, acc.2 ++ r.2)

/-- Embedding of `check_hashes` (src/main.rs lines 141-196): sweep every
line of every manifest, starting from `all_ok = true`; the first component
is the aggregate (the process exits 0 exactly when it is `true`), the
second the per-line outcomes in order. -/
def check_hashes (fs : String → Option (List Nat)) (algorithm : HashAlgorithm)
    (manifests : List String) : Bool × List LineOutcome :=
  checkManifestsFold fs algorithm manifests (true, [])

/-- Sample filesystem: a single readable file `f.txt` with content `abc`. -/
def fsSample : String → Option (List Nat) :=
  fun p => if p = "f.txt" then some [97, 98, 99] else none

/-- Sample filesystem: nothing is readable. -/
def fsNone : String → Option (List Nat) :=
  fun _ => none

/-! ## Basic structural lemmas -/

/-- Length of a string built from a character list. -/
theorem length_mkString (l : List Char) : (String.mk l).length = l.length := rfl

/-- Characters of a string built from a character list. -/
theorem toList_mkString (l : List Char) : (String.mk l).toList = l := rfl

/-- Rebuilding a string from its characters is the identity. -/
theorem mkString_toList (s : String) : String.mk s.toList = s := rfl

/-- Characters of an appended string. -/
theorem toList_append (s t : String) : (s ++ t).toList = s.toList ++ t.toList := by
  cases s
  cases t
  rfl

/-- `bytesBE` always emits exactly `n` bytes. -/
theorem length_bytesBE (wb n : Nat) (ws : List Nat) : (bytesBE wb n ws).length = n := by
  simp [bytesBE]

/-- `bytesLE` always emits exactly `n` bytes. -/
theorem length_bytesLE (wb n : Nat) (ws : List Nat) : (bytesLE wb n ws).length = n := by
  simp [bytesLE]

/-- Every `bytesBE` output value is a byte. -/
theorem bytesBE_lt (wb n : Nat) (ws : List Nat) : ∀ b ∈ bytesBE wb n ws, b < 256 := by
  intro b hb
  simp only [bytesBE, List.mem_map, List.mem_range] at hb
  obtain ⟨i, _, rfl⟩ := hb
  exact Nat.mod_lt _ (by decide)

/-- Every `bytesLE` output value is a byte. -/
theorem bytesLE_lt (wb n : Nat) (ws : List Nat) : ∀ b ∈ bytesLE wb n ws, b < 256 := by
  intro b hb
  simp only [bytesLE, List.mem_map, List.mem_range] at hb
  obtain ⟨i, _, rfl⟩ := hb
  exact Nat.mod_lt _ (by decide)

/-- A hex encoding has two characters per byte. -/
theorem length_hexEncode (bs : List Nat) : (hexEncode bs).length = 2 * bs.length := by
  unfold hexEncode
  rw [length_mkString]
  induction bs with
  | nil => rfl
  | cons b t ih =>
    simp only [List.flatMap_cons, List.length_append, List.length_cons, List.length_nil, ih]
    omega

/-- Hex digits of values below 16 are lowercase hex characters: not spaces,
not whitespace, and fixed by ASCII lowercasing. -/
theorem hexDigit_facts (n : Nat) (h : n < 16) :
    isRustWhitespace (hexDigit n) = false ∧ hexDigit n ≠ ' ' := by
  interval_cases n <;> exact (by decide)

/-- Every character of a hex encoding of bytes is a hex digit of a value
below 16. -/
theorem hexEncode_chars (bs : List Nat) (h : ∀ b ∈ bs, b < 256) :
    ∀ c ∈ (hexEncode bs).toList, ∃ n, n < 16 ∧ c = hexDigit n := by
  intro c hc
  simp only [hexEncode, toList_mkString, List.mem_flatMap] at hc
  obtain ⟨b, hb, hcc⟩ := hc
  have hblt : b < 256 := h b hb
  simp only [List.mem_cons, List.not_mem_nil, or_false] at hcc
  rcases hcc with rfl | rfl
  · exact ⟨b / 16, Nat.div_lt_of_lt_mul (by omega), rfl⟩
  · exact ⟨b % 16, Nat.mod_lt _ (by decide), rfl⟩

/-- ASCII lowercasing preserves string length. -/
theorem length_toLowerAscii (s : String) : (toLowerAscii s).length = s.length := by
  simp only [toLowerAscii, length_mkString, List.length_map]
  rfl

/-! ## Digest engine lemmas -/

/-- The empty-marker return of `calculate_hash` is `calculate_empty_hash`. -/
theorem calculate_hash_true_eq (data : List Nat) (algorithm : HashAlgorithm) :
    calculate_hash data algorithm true = calculate_empty_hash algorithm := rfl

/-- The general branch of `calculate_hash` hex-encodes the dispatched
primitive's digest of `data`. -/
theorem calculate_hash_false_eq (data : List Nat) (algorithm : HashAlgorithm) :
    calculate_hash data algorithm false = hexEncode (hashBytesOf algorithm data) := by
  cases algorithm <;> rfl

/-- `calculate_empty_hash` hex-encodes the dispatched primitive's digest of
zero bytes. -/
theorem calculate_empty_hash_eq (algorithm : HashAlgorithm) :
    calculate_empty_hash algorithm = hexEncode (hashBytesOf algorithm []) := by
  cases algorithm <;> rfl

/-- Each primitive emits exactly the algorithm's fixed number of digest
bytes, whatever the input. -/
theorem length_hashBytesOf (algorithm : HashAlgorithm) (data : List Nat) :
    (hashBytesOf algorithm data).length = algorithm.widthBytes := by
  cases algorithm <;>
    simp [hashBytesOf, HashAlgorithm.widthBytes, sha1Hash, sha224Hash, sha256Hash,
      sha384Hash, sha512Hash, sha3x224Hash, sha3x256Hash, sha3x384Hash, sha3x512Hash,
      sha3Hash, blake2b512Hash, blake2s256Hash, length_bytesBE, length_bytesLE]

/-- Every primitive digest value is a byte. -/
theorem hashBytesOf_lt (algorithm : HashAlgorithm) (data : List Nat) :
    ∀ b ∈ hashBytesOf algorithm data, b < 256 := by
  cases algorithm <;>
    simp only [hashBytesOf, sha1Hash, sha224Hash, sha256Hash, sha384Hash, sha512Hash,
      sha3x224Hash, sha3x256Hash, sha3x384Hash, sha3x512Hash, sha3Hash,
      blake2b512Hash, blake2s256Hash] <;>
    first
      | exact bytesBE_lt _ _ _
      | exact bytesLE_lt _ _ _

/-- The algorithm's fixed width is positive. -/
theorem widthBytes_pos (algorithm : HashAlgorithm) : 0 < algorithm.widthBytes := by
  cases algorithm <;> simp [HashAlgorithm.widthBytes]

/-- Reader step: a zero-byte first read yields the empty-marker hash. -/
theorem reader_cons_zero (first : List Nat) (rest : List (List Nat))
    (algorithm : HashAlgorithm) (h : first.length = 0) :
    calculate_hash_from_reader (first :: rest) algorithm
      = calculate_hash [] algorithm true := by
  unfold calculate_hash_from_reader
  simp only [List.headD_cons]
  rw [if_pos h]

/-- Reader step: a buffer-filling first read hashes the concatenation of
the first chunk and everything `read_to_end` appends. -/
theorem reader_cons_full (first : List Nat) (rest : List (List Nat))
    (algorithm : HashAlgorithm) (h : first.length = 8192) :
    calculate_hash_from_reader (first :: rest) algorithm
      = calculate_hash (first ++ rest.flatten) algorithm false := by
  unfold calculate_hash_from_reader
  simp only [List.headD_cons, List.tail_cons]
  rw [if_neg (by omega), if_pos h]

/-- Reader step: a short nonzero first read is hashed as the only chunk. -/
theorem reader_cons_short (first : List Nat) (rest : List (List Nat))
    (algorithm : HashAlgorithm) (h0 : first.length ≠ 0) (h8 : first.length ≠ 8192) :
    calculate_hash_from_reader (first :: rest) algorithm
      = calculate_hash first algorithm false := by
  unfold calculate_hash_from_reader
  simp only [List.headD_cons]
  rw [if_neg h0, if_neg h8]

/-- The reader adapter over a file's canonical chunking computes exactly
the hex digest of the file's whole content. -/
theorem reader_fileChunks_eq (content : List Nat) (algorithm : HashAlgorithm) :
    calculate_hash_from_reader (fileChunks content) algorithm
      = hexEncode (hashBytesOf algorithm content) := by
  by_cases h0 : content.length = 0
  · have hc : content = [] := List.length_eq_zero.mp h0
    subst hc
    rw [show fileChunks [] = [[]] from rfl]
    rw [reader_cons_zero [] [] algorithm rfl]
    rw [calculate_hash_true_eq, calculate_empty_hash_eq]
  · by_cases h1 : content.length <= 8192
    · rw [show fileChunks content = [content] from if_pos h1]
      by_cases h2 : content.length = 8192
      · rw [reader_cons_full content [] algorithm h2]
        simp only [List.flatten_nil, List.append_nil]
        rw [calculate_hash_false_eq]
      · rw [reader_cons_short content [] algorithm h0 h2, calculate_hash_false_eq]
    · rw [show fileChunks content = [content.take 8192, content.drop 8192] from if_neg h1]
      have hlt : (content.take 8192).length = 8192 := by
        rw [List.length_take]
        omega
      rw [reader_cons_full (content.take 8192) [content.drop 8192] algorithm hlt]
      simp only [List.flatten_cons, List.flatten_nil, List.append_nil]
      rw [List.take_append_drop, calculate_hash_false_eq]

/-! ## Manifest parsing lemmas -/

/-- Splitting fails exactly when the line has no two consecutive spaces. -/
theorem splitTwoSpace_none_iff (l : List Char) :
    splitTwoSpace l = none ↔ noTwoSpace l = true := by
  induction l with
  | nil => simp [splitTwoSpace, noTwoSpace]
  | cons c rest ih =>
    simp only [splitTwoSpace, noTwoSpace]
    by_cases h : c = ' ' && rest.head? = some ' '
    · simp [h]
    · simp only [h, Bool.false_eq_true, if_false]
      cases hr : splitTwoSpace rest with
      | none => simpa [hr] using ih
      | some ab =>
        have hnt : ¬ noTwoSpace rest = true := fun hx => by
          rw [ih.mpr hx] at hr
          cases hr
        simp [hr, hnt]

/-- A successful split decomposes the line at the first two-space
separator: the prefix followed by one space contains no two consecutive
spaces, so no earlier split point exists. -/
theorem splitTwoSpace_some_spec (l a b : List Char) (h : splitTwoSpace l = some (a, b)) :
    l = a ++ ' ' :: ' ' :: b ∧ noTwoSpace (a ++ [' ']) = true := by
  induction l generalizing a b with
  | nil => simp [splitTwoSpace] at h
  | cons c rest ih =>
    simp only [splitTwoSpace] at h
    by_cases hc : c = ' ' && rest.head? = some ' '
    · rw [if_pos hc] at h
      simp only [Option.some.injEq, Prod.mk.injEq] at h
      obtain ⟨ha, hb⟩ := h
      subst ha
      subst hb
      simp only [Bool.and_eq_true, decide_eq_true_eq] at hc
      obtain ⟨rfl, hh⟩ := hc
      cases rest with
      | nil => cases hh
      | cons r rs =>
        simp only [List.head?_cons, Option.some.injEq] at hh
        subst hh
        exact ⟨rfl, by decide⟩
    · rw [if_neg hc] at h
      cases hr : splitTwoSpace rest with
      | none => rw [hr] at h; cases h
      | some ab =>
        obtain ⟨a2, b2⟩ := ab
        rw [hr] at h
        simp only [Option.some.injEq, Prod.mk.injEq] at h
        obtain ⟨ha, hb⟩ := h
        subst ha
        subst hb
        obtain ⟨hrl, hrn⟩ := ih a2 b2 hr
        constructor
        · simp [hrl]
        · simp only [List.cons_append, noTwoSpace]
          rw [if_neg ?_]
          · exact hrn
          · intro hcc
            apply hc
            simp only [Bool.and_eq_true, decide_eq_true_eq] at hcc ⊢
            obtain ⟨hceq, hh⟩ := hcc
            refine ⟨hceq, ?_⟩
            rw [hrl]
            cases a2 with
            | nil => simp
            | cons x xs =>
              simp only [List.cons_append, List.head?_cons] at hh ⊢
              exact hh

/-- Splitting a line whose prefix contains no spaces at the two-space
separator recovers prefix and suffix. -/
theorem splitTwoSpace_append (a b : List Char) (h : ∀ c ∈ a, c ≠ ' ') :
    splitTwoSpace (a ++ ' ' :: ' ' :: b) = some (a, b) := by
  induction a with
  | nil => simp [splitTwoSpace]
  | cons c a2 ih =>
    have hc : c ≠ ' ' := h c (List.mem_cons_self c a2)
    have hrec := ih (fun x hx => h x (List.mem_cons_of_mem c hx))
    simp only [List.cons_append, splitTwoSpace, List.append_eq]
    rw [if_neg (by simp [hc])]
    simp only [List.append_eq] at hrec
    rw [hrec]

/-! ## Coordinator lemmas -/

/-- The per-line sweep records one outcome per line, no matter the flag. -/
theorem checkLinesFold_snd (fs : String → Option (List Nat)) (algorithm : HashAlgorithm)
    (ls : List String) (b : Bool) :
    (checkLinesFold fs algorithm ls b).2 = ls.map (checkLine fs algorithm) := by
  induction ls generalizing b with
  | nil => rfl
  | cons l rest ih => simp [checkLinesFold, ih]

/-- The per-line sweep's flag is the conjunction of the incoming flag and
every line's outcome being non-failing. -/
theorem checkLinesFold_fst (fs : String → Option (List Nat)) (algorithm : HashAlgorithm)
    (ls : List String) (b : Bool) :
    (checkLinesFold fs algorithm ls b).1
      = (b && (ls.map (checkLine fs algorithm)).all lineOk) := by
  induction ls generalizing b with
  | nil => simp [checkLinesFold]
  | cons l rest ih => simp [checkLinesFold, ih, Bool.and_assoc]

/-- The manifest sweep accumulates every manifest's line outcomes and
conjoins their flags. -/
theorem checkManifestsFold_spec (fs : String → Option (List Nat)) (algorithm : HashAlgorithm)
    (ms : List String) (b : Bool) (os : List LineOutcome) :
    checkManifestsFold fs algorithm ms (b, os)
      = (b && (ms.flatMap (fun m => (linesOf m).map (checkLine fs algorithm))).all lineOk,
         os ++ ms.flatMap (fun m => (linesOf m).map (checkLine fs algorithm))) := by
  induction ms generalizing b os with
  | nil => simp [checkManifestsFold]
  | cons m rest ih =>
    simp [checkManifestsFold, checkLinesFold_fst, checkLinesFold_snd, ih,
      Bool.and_assoc, List.all_append]

/-- An outcome is non-failing exactly when it is a skip or an `OK`. -/
theorem lineOk_iff (o : LineOutcome) :
    lineOk o = true ↔ (o ≠ LineOutcome.skip → o = LineOutcome.ok) := by
  cases o <;> simp [lineOk]

/-- Reduction of `checkLine` on a blank line. -/
theorem checkLine_blank (fs : String → Option (List Nat)) (algorithm : HashAlgorithm)
    (line : String) (hb : isBlank line = true) :
    checkLine fs algorithm line = LineOutcome.skip := by
  unfold checkLine
  rw [hb]
  rfl

/-- Reduction of `checkLine` on a non-blank line without the separator. -/
theorem checkLine_noSep (fs : String → Option (List Nat)) (algorithm : HashAlgorithm)
    (line : String) (hb : isBlank line = false) (hs : splitTwoSpace line.toList = none) :
    checkLine fs algorithm line = LineOutcome.error "improperly formatted" := by
  unfold checkLine
  rw [hb, hs]
  rfl

/-- Reduction of `checkLine` on a non-blank line that splits. -/
theorem checkLine_parsed (fs : String → Option (List Nat)) (algorithm : HashAlgorithm)
    (line : String) (parts0 parts1 : List Char)
    (hb : isBlank line = false) (hs : splitTwoSpace line.toList = some (parts0, parts1)) :
    checkLine fs algorithm line =
      (if String.mk parts1 = "-" then LineOutcome.error "cannot check stdin"
       else
         match process_file_check fs (String.mk parts1) (String.mk parts0) algorithm with
         | some true => LineOutcome.ok
         | some false => LineOutcome.mismatch
         | none => LineOutcome.error ("Failed to open file: " ++ String.mk parts1)) := by
  unfold checkLine
  rw [hb, hs]
  rfl

/-- Reduction of `process_file_check` on a readable file. -/
theorem process_file_check_some (fs : String → Option (List Nat))
    (file_path expected_hash : String) (algorithm : HashAlgorithm) (content : List Nat)
    (h : fs file_path = some content) :
    process_file_check fs file_path expected_hash algorithm
      = some (toLowerAscii (calculate_hash_from_reader (fileChunks content) algorithm)
          == toLowerAscii expected_hash) := by
  unfold process_file_check
  rw [h]

/-- Reduction of `process_file_check` on an unreadable file. -/
theorem process_file_check_none (fs : String → Option (List Nat))
    (file_path expected_hash : String) (algorithm : HashAlgorithm)
    (h : fs file_path = none) :
    process_file_check fs file_path expected_hash algorithm = none := by
  unfold process_file_check
  rw [h]

/-! ## The claims -/

/-- C1: for every algorithm selector, the empty-marker path of
`calculate_hash` yields the same hex string as the general path applied to
a zero-length byte sequence. -/
theorem claim_C1_empty_marker_equivalence (algorithm : HashAlgorithm) :
    calculate_hash [] algorithm true = calculate_hash [] algorithm false := by
  cases algorithm <;> rfl

/-- C2: for every algorithm selector, every input and both values of the
empty marker, the hex string returned by `calculate_hash` has length
exactly twice the algorithm's fixed byte width (20, 28, 32, 48, 64, 28,
32, 48, 64, 64, 32 across the eleven selectors); the length is independent
of the input. -/
theorem claim_C2_digest_length (data : List Nat) (algorithm : HashAlgorithm) (is_empty : Bool) :
    (calculate_hash data algorithm is_empty).length = 2 * algorithm.widthBytes := by
  cases is_empty
  · rw [calculate_hash_false_eq, length_hexEncode, length_hashBytesOf]
  · rw [calculate_hash_true_eq, calculate_empty_hash_eq, length_hexEncode, length_hashBytesOf]

/-- C3: round-trip — forming the compute-mode output line
`digest  path` from a file's digest (path not `-`), then checking that
line against the same filesystem content under the same selector, yields
outcome `Ok`. -/
theorem claim_C3_roundtrip (fs : String → Option (List Nat)) (algorithm : HashAlgorithm)
    (content : List Nat) (path : String)
    (hpath : path ≠ "-")
    (hfs : fs path = some content) :
    checkLine fs algorithm
      (computeLine (calculate_hash_from_reader (fileChunks content) algorithm) path)
      = LineOutcome.ok := by
  have hdig := reader_fileChunks_eq content algorithm
  have hchars := hexEncode_chars (hashBytesOf algorithm content) (hashBytesOf_lt algorithm content)
  have hnospace : ∀ c ∈ (hexEncode (hashBytesOf algorithm content)).toList, c ≠ ' ' := by
    intro c hc
    obtain ⟨n, hn, rfl⟩ := hchars c hc
    exact (hexDigit_facts n hn).2
  have hline : (computeLine (calculate_hash_from_reader (fileChunks content) algorithm) path).toList
      = (hexEncode (hashBytesOf algorithm content)).toList ++ ' ' :: ' ' :: path.toList := by
    rw [computeLine, hdig, toList_append, toList_append, List.append_assoc]
    rfl
  have hpos : 0 < (hexEncode (hashBytesOf algorithm content)).toList.length := by
    have h1 : (hexEncode (hashBytesOf algorithm content)).toList.length
        = 2 * algorithm.widthBytes := by
      rw [show (hexEncode (hashBytesOf algorithm content)).toList.length
          = (hexEncode (hashBytesOf algorithm content)).length from rfl]
      rw [length_hexEncode, length_hashBytesOf]
    rw [h1]
    have := widthBytes_pos algorithm
    omega
  have hblank : isBlank (computeLine (calculate_hash_from_reader (fileChunks content) algorithm) path)
      = false := by
    unfold isBlank
    rw [hline]
    cases hE : (hexEncode (hashBytesOf algorithm content)).toList with
    | nil => rw [hE] at hpos; simp at hpos
    | cons c0 cs =>
      obtain ⟨n, hn, hcd⟩ := hchars c0 (by rw [hE]; exact List.mem_cons_self c0 cs)
      simp [hcd, (hexDigit_facts n hn).1]
  have hsplit : splitTwoSpace
      ((hexEncode (hashBytesOf algorithm content)).toList ++ ' ' :: ' ' :: path.toList)
      = some ((hexEncode (hashBytesOf algorithm content)).toList, path.toList) :=
    splitTwoSpace_append _ _ hnospace
  rw [checkLine_parsed fs algorithm _ _ _ hblank (by rw [hline]; exact hsplit)]
  rw [mkString_toList path, mkString_toList (hexEncode (hashBytesOf algorithm content))]
  rw [if_neg hpath]
  rw [process_file_check_some fs path (hexEncode (hashBytesOf algorithm content))
    algorithm content hfs]
  rw [hdig]
  simp [beq_self_eq_true]

/-- C3 witness at file `f.txt` with content `abc` under SHA-256. -/
theorem claim_C3_roundtrip_witness :
    checkLine fsSample HashAlgorithm.Sha256
      (computeLine (calculate_hash_from_reader (fileChunks [97, 98, 99]) HashAlgorithm.Sha256)
        "f.txt")
      = LineOutcome.ok :=
  claim_C3_roundtrip fsSample HashAlgorithm.Sha256 [97, 98, 99] "f.txt" (by decide) (by decide)

/-- C4: a line blank after trimming is skipped; a non-blank line without
the two-space separator yields `Error "improperly formatted"` with no
digest recomputation (the outcome is independent of the filesystem and the
algorithm) and the sweep continues with the remaining lines; a successful
split is at the first occurrence of two consecutive spaces. -/
theorem claim_C4_line_parsing (fs fs' : String → Option (List Nat))
    (algorithm algorithm' : HashAlgorithm) (line : String) (rest : List String) (b : Bool) :
    (isBlank line = true → checkLine fs algorithm line = LineOutcome.skip)
    ∧ (isBlank line = false → splitTwoSpace line.toList = none →
        checkLine fs algorithm line = LineOutcome.error "improperly formatted"
        ∧ checkLine fs algorithm line = checkLine fs' algorithm' line)
    ∧ (∀ a c, splitTwoSpace line.toList = some (a, c) →
        line.toList = a ++ ' ' :: ' ' :: c ∧ noTwoSpace (a ++ [' ']) = true)
    ∧ (splitTwoSpace line.toList = none → noTwoSpace line.toList = true)
    ∧ (checkLinesFold fs algorithm (line :: rest) b).2
        = checkLine fs algorithm line :: rest.map (checkLine fs algorithm) := by
  refine ⟨fun hb => checkLine_blank fs algorithm line hb,
    fun hb hn => ⟨checkLine_noSep fs algorithm line hb hn, ?_⟩,
    fun a c h => splitTwoSpace_some_spec line.toList a c h,
    fun hn => (splitTwoSpace_none_iff line.toList).mp hn,
    ?_⟩
  · rw [checkLine_noSep fs algorithm line hb hn, checkLine_noSep fs' algorithm' line hb hn]
  · simp [checkLinesFold, checkLinesFold_snd]

/-- C4 witness on the separator-free line `ab cd`. -/
theorem claim_C4_line_parsing_witness :
    checkLine fsSample HashAlgorithm.Sha256 "ab cd" = LineOutcome.error "improperly formatted" :=
  ((claim_C4_line_parsing fsSample fsNone HashAlgorithm.Sha256 HashAlgorithm.Sha1
    "ab cd" [] true).2.1 (by decide) (by decide)).1

/-- C5: the check-mode aggregate is `true` exactly when every non-skipped
line across every manifest produced `Ok`; and every line of every manifest
is evaluated and recorded — one outcome per line, in order, whatever
failures occur (the sweep is best-effort, not fail-fast). -/
theorem claim_C5_aggregate (fs : String → Option (List Nat)) (algorithm : HashAlgorithm)
    (manifests : List String) :
    ((check_hashes fs algorithm manifests).1 = true ↔
      ∀ o ∈ (check_hashes fs algorithm manifests).2,
        o ≠ LineOutcome.skip → o = LineOutcome.ok)
    ∧ (check_hashes fs algorithm manifests).2
        = manifests.flatMap (fun m => (linesOf m).map (checkLine fs algorithm)) := by
  unfold check_hashes
  rw [checkManifestsFold_spec fs algorithm manifests true []]
  refine ⟨?_, by simp⟩
  simp only [Bool.true_and, List.all_eq_true]
  exact ⟨fun H o ho => (lineOk_iff o).mp (H o ho), fun H o ho => (lineOk_iff o).mpr (H o ho)⟩

/-- C5 witness: one manifest with one passing line, one blank line and one
mismatching line. -/
theorem claim_C5_aggregate_witness :
    ((check_hashes fsSample HashAlgorithm.Sha256 ["deadbeef  f.txt"]).1 = true ↔
      ∀ o ∈ (check_hashes fsSample HashAlgorithm.Sha256 ["deadbeef  f.txt"]).2,
        o ≠ LineOutcome.skip → o = LineOutcome.ok)
    ∧ (check_hashes fsSample HashAlgorithm.Sha256 ["deadbeef  f.txt"]).2
        = ["deadbeef  f.txt"].flatMap
            (fun m => (linesOf m).map (checkLine fsSample HashAlgorithm.Sha256)) :=
  claim_C5_aggregate fsSample HashAlgorithm.Sha256 ["deadbeef  f.txt"]

/-- C6: for a well-formed line naming a readable file, the outcome is `Ok`
exactly when recomputed digest and expected digest agree ignoring ASCII
case, `Mismatch` exactly when they differ, and an unreadable file yields
`Error`. -/
theorem claim_C6_compare_semantics (fs : String → Option (List Nat)) (algorithm : HashAlgorithm)
    (line : String) (eh p : List Char)
    (hblank : isBlank line = false)
    (hsplit : splitTwoSpace line.toList = some (eh, p))
    (hp : String.mk p ≠ "-") :
    (∀ content, fs (String.mk p) = some content →
      ((checkLine fs algorithm line = LineOutcome.ok ↔
          toLowerAscii (calculate_hash_from_reader (fileChunks content) algorithm)
            = toLowerAscii (String.mk eh))
       ∧ (checkLine fs algorithm line = LineOutcome.mismatch ↔
          toLowerAscii (calculate_hash_from_reader (fileChunks content) algorithm)
            ≠ toLowerAscii (String.mk eh))))
    ∧ (fs (String.mk p) = none →
        checkLine fs algorithm line
          = LineOutcome.error ("Failed to open file: " ++ String.mk p)) := by
  constructor
  · intro content hc
    rw [checkLine_parsed fs algorithm line eh p hblank hsplit, if_neg hp]
    rw [process_file_check_some fs (String.mk p) (String.mk eh) algorithm content hc]
    by_cases he : toLowerAscii (calculate_hash_from_reader (fileChunks content) algorithm)
        = toLowerAscii (String.mk eh)
    · rw [show (toLowerAscii (calculate_hash_from_reader (fileChunks content) algorithm)
          == toLowerAscii (String.mk eh)) = true from beq_iff_eq.mpr he]
      simp [he]
    · rw [show (toLowerAscii (calculate_hash_from_reader (fileChunks content) algorithm)
          == toLowerAscii (String.mk eh)) = false from beq_eq_false_iff_ne.mpr he]
      simp [he]
  · intro hn
    rw [checkLine_parsed fs algorithm line eh p hblank hsplit, if_neg hp]
    rw [process_file_check_none fs (String.mk p) (String.mk eh) algorithm hn]

/-- C6 witness: an unreadable target file yields the `Error` outcome. -/
theorem claim_C6_compare_semantics_witness :
    checkLine fsNone HashAlgorithm.Sha256 "abc  f.txt"
      = LineOutcome.error ("Failed to open file: " ++ String.mk "f.txt".toList) :=
  (claim_C6_compare_semantics fsNone HashAlgorithm.Sha256 "abc  f.txt"
    "abc".toList "f.txt".toList (by decide) (by decide) (by decide)).2 rfl

/-- C7: the reader adapter hashes the empty marker when the first read
returns zero bytes; continues to exhaustion and hashes the concatenation
when the first read fills the 8192-byte buffer; and hashes exactly the
first chunk as final when the first read is short but nonzero. -/
theorem claim_C7_reader_adapter (algorithm : HashAlgorithm) (first : List Nat)
    (rest : List (List Nat)) :
    (first.length = 0 →
        calculate_hash_from_reader (first :: rest) algorithm
          = calculate_hash [] algorithm true)
    ∧ (first.length = 8192 →
        calculate_hash_from_reader (first :: rest) algorithm
          = calculate_hash (first ++ rest.flatten) algorithm false)
    ∧ (0 < first.length → first.length < 8192 →
        calculate_hash_from_reader (first :: rest) algorithm
          = calculate_hash first algorithm false) :=
  ⟨fun h0 => reader_cons_zero first rest algorithm h0,
   fun h8 => reader_cons_full first rest algorithm h8,
   fun hpos hlt => reader_cons_short first rest algorithm (by omega) (by omega)⟩

/-- C7 witness: a three-byte single chunk is hashed as the only chunk. -/
theorem claim_C7_reader_adapter_witness :
    calculate_hash_from_reader [[1, 2, 3]] HashAlgorithm.Sha1
      = calculate_hash [1, 2, 3] HashAlgorithm.Sha1 false :=
  (claim_C7_reader_adapter HashAlgorithm.Sha1 [1, 2, 3] []).2.2 (by decide) (by decide)

/-- C8: a manifest line whose target label is `-` yields
`Error "cannot check stdin"`, reads nothing and recomputes nothing (the
outcome is independent of filesystem and algorithm), clears the aggregate,
and the sweep continues with the remaining lines. -/
theorem claim_C8_stdin_target (fs fs' : String → Option (List Nat))
    (algorithm algorithm' : HashAlgorithm) (line : String) (eh : List Char)
    (rest : List String) (b : Bool)
    (hblank : isBlank line = false)
    (hsplit : splitTwoSpace line.toList = some (eh, ['-'])) :
    checkLine fs algorithm line = LineOutcome.error "cannot check stdin"
    ∧ checkLine fs algorithm line = checkLine fs' algorithm' line
    ∧ lineOk (checkLine fs algorithm line) = false
    ∧ (checkLinesFold fs algorithm (line :: rest) b).1 = false
    ∧ (checkLinesFold fs algorithm (line :: rest) b).2
        = LineOutcome.error "cannot check stdin" :: rest.map (checkLine fs algorithm) := by
  have h1 : checkLine fs algorithm line = LineOutcome.error "cannot check stdin" := by
    rw [checkLine_parsed fs algorithm line eh ['-'] hblank hsplit]
    rw [if_pos rfl]
  have h1' : checkLine fs' algorithm' line = LineOutcome.error "cannot check stdin" := by
    rw [checkLine_parsed fs' algorithm' line eh ['-'] hblank hsplit]
    rw [if_pos rfl]
  refine ⟨h1, by rw [h1, h1'], by rw [h1]; rfl, ?_, ?_⟩
  · rw [checkLinesFold_fst]
    simp only [List.map_cons, List.all_cons]
    rw [h1]
    simp [lineOk]
  · simp [checkLinesFold, checkLinesFold_snd, h1]

/-- C8 witness on the line `abc  -`. -/
theorem claim_C8_stdin_target_witness :
    checkLine fsSample HashAlgorithm.Sha256 "abc  -" = LineOutcome.error "cannot check stdin" :=
  (claim_C8_stdin_target fsSample fsNone HashAlgorithm.Sha256 HashAlgorithm.Sha1
    "abc  -" "abc".toList [] true (by decide) (by decide)).1

/-- C9: a well-formed line naming a readable file whose expected-digest
field has length other than twice the selected algorithm's byte width is a
`Mismatch` (reported `FAILED`), never `Ok` and never a distinct diagnostic:
the comparison is a plain case-insensitive string comparison. -/
theorem claim_C9_wrong_width_mismatch (fs : String → Option (List Nat))
    (algorithm : HashAlgorithm) (line : String) (eh p : List Char) (content : List Nat)
    (hblank : isBlank line = false)
    (hsplit : splitTwoSpace line.toList = some (eh, p))
    (hp : String.mk p ≠ "-")
    (hfs : fs (String.mk p) = some content)
    (hlen : eh.length ≠ 2 * algorithm.widthBytes) :
    checkLine fs algorithm line = LineOutcome.mismatch := by
  have hL : (toLowerAscii (calculate_hash_from_reader (fileChunks content) algorithm)).length
      = 2 * algorithm.widthBytes := by
    rw [length_toLowerAscii, reader_fileChunks_eq, length_hexEncode, length_hashBytesOf]
  have hne : toLowerAscii (calculate_hash_from_reader (fileChunks content) algorithm)
      ≠ toLowerAscii (String.mk eh) := by
    intro heq
    apply hlen
    have hlen2 := congrArg String.length heq
    rw [hL, length_toLowerAscii, length_mkString] at hlen2
    omega
  rw [checkLine_parsed fs algorithm line eh p hblank hsplit, if_neg hp]
  rw [process_file_check_some fs (String.mk p) (String.mk eh) algorithm content hfs]
  rw [show (toLowerAscii (calculate_hash_from_reader (fileChunks content) algorithm)
      == toLowerAscii (String.mk eh)) = false from beq_eq_false_iff_ne.mpr hne]

/-- C9 witness: the 8-character digest field `deadbeef` against SHA-256's
64-character digests. -/
theorem claim_C9_wrong_width_mismatch_witness :
    checkLine fsSample HashAlgorithm.Sha256 "deadbeef  f.txt" = LineOutcome.mismatch :=
  claim_C9_wrong_width_mismatch fsSample HashAlgorithm.Sha256 "deadbeef  f.txt"
    "deadbeef".toList "f.txt".toList [97, 98, 99]
    (by decide) (by decide) (by decide) (by decide) (by decide)

/-- C10: with the empty marker set, `calculate_hash` ignores its data
argument entirely — the result depends only on the algorithm selector. -/
theorem claim_C10_empty_marker_noninterference (algorithm : HashAlgorithm)
    (d1 d2 : List Nat) :
    calculate_hash d1 algorithm true = calculate_hash d2 algorithm true := by
  rw [calculate_hash_true_eq d1 algorithm, calculate_hash_true_eq d2 algorithm]

